import Mathlib

/-!
Verification development for the `idmap` identifier-mapping core
(`shared/idmap/set.go` of the incus repository).

The set-level operations (`Equals`, `ValidRanges`, `AddSafe`, `Append`,
`doShiftIntoNs`, `JSONMarshal`/`JSONUnmarshal`) are translated directly from
`set.go`.  The `Entry` type and its operations (`Intersects`,
`HostidsIntersect`, `shiftIntoNS`, `shiftFromNS`, `parse`) live in a file that
is not part of the provided sources (`entry.go`); those are modelled from the
specification, as marked on each definition.

Go `int64` values are modelled as unbounded `Int`; all concrete inputs used in
the theorems below are far from the `int64` boundaries, so wrap-around never
distinguishes the model from the code on these inputs.
-/

/-- Modelled from the spec: the `Entry` type of the idmap package (`entry.go`
is not among the provided sources).  Fields as in spec §3: the UID/GID tag
booleans (both may be true), the first host-side ID, the first namespace-side
ID, and the number of consecutive IDs covered. -/
structure Entry where
  Isuid : Bool
  Isgid : Bool
  Hostid : Int
  Nsid : Int
  Maprange : Int
deriving DecidableEq

/-- Modelled from the spec: two entries share a tag when both are UID entries
or both are GID entries (spec §4.1, "both apply to at least one shared tag"). -/
def Entry.sharedTag (a b : Entry) : Prop :=
  (a.Isuid = true ∧ b.Isuid = true) ∨ (a.Isgid = true ∧ b.Isgid = true)

instance (a b : Entry) : Decidable (Entry.sharedTag a b) := by
  unfold Entry.sharedTag
  infer_instance

/-- Modelled from the spec: the namespace-ID ranges `[Nsid, Nsid+Maprange-1]`
of the two entries have a common element.  An entry with `Maprange ≤ 0` has an
empty range (spec §3 requires `Maprange > 0` for a meaningful entry), so it
overlaps nothing. -/
def Entry.nsOverlap (a b : Entry) : Prop :=
  0 < a.Maprange ∧ 0 < b.Maprange ∧
    a.Nsid < b.Nsid + b.Maprange ∧ b.Nsid < a.Nsid + a.Maprange

instance (a b : Entry) : Decidable (Entry.nsOverlap a b) := by
  unfold Entry.nsOverlap
  infer_instance

/-- Modelled from the spec: the host-ID ranges `[Hostid, Hostid+Maprange-1]`
of the two entries have a common element. -/
def Entry.hostOverlap (a b : Entry) : Prop :=
  0 < a.Maprange ∧ 0 < b.Maprange ∧
    a.Hostid < b.Hostid + b.Maprange ∧ b.Hostid < a.Hostid + a.Maprange

instance (a b : Entry) : Decidable (Entry.hostOverlap a b) := by
  unfold Entry.hostOverlap
  infer_instance

/-- Modelled from the spec (§4.1 `intersects`): true when the namespace-ID
ranges overlap and the entries share a tag. -/
def Entry.Intersects (a b : Entry) : Bool :=
  decide (Entry.sharedTag a b ∧ Entry.nsOverlap a b)

/-- Modelled from the spec (§4.1 `hostIDsIntersect`): true when the host-ID
ranges overlap and the entries share a tag. -/
def Entry.HostidsIntersect (a b : Entry) : Bool :=
  decide (Entry.sharedTag a b ∧ Entry.hostOverlap a b)

/-- Modelled from the spec (§4.1 `shiftIntoNamespace`): host-side to
namespace-side translation; `none` models the `NotInRange` error. -/
def Entry.shiftIntoNS (e : Entry) (id : Int) : Option Int :=
  if e.Hostid ≤ id ∧ id ≤ e.Hostid + e.Maprange - 1 then
    some (e.Nsid + (id - e.Hostid))
  else
    none

/-- Modelled from the spec (§4.1 `shiftFromNamespace`): namespace-side to
host-side translation; `none` models the `NotInRange` error. -/
def Entry.shiftFromNS (e : Entry) (id : Int) : Option Int :=
  if e.Nsid ≤ id ∧ id ≤ e.Nsid + e.Maprange - 1 then
    some (e.Hostid + (id - e.Nsid))
  else
    none

/-- The `IdmapSet` struct of `set.go:16`: a list of entries. -/
structure IdmapSet where
  Idmap : List Entry
deriving DecidableEq

/-- The error outcomes of the mutation operations of `set.go`:
`ErrHostIDIsSubID` (`set.go:13`), the `Conflicting id mapping` error of
`Append` (`set.go:225`), and the parse error surfaced by `Append`
(`set.go:219-222`). -/
inductive IdmapError where
  | hostIDIsSubID
  | conflictingMapping
  | parseError
deriving DecidableEq

/-- The comparison of `IdmapSet.Less` (`set.go:60-70`), expressed on the two
entries being compared: UID entries first, then GID entries, then ascending
namespace ID. -/
def lessEntry (a b : Entry) : Bool :=
  if a.Isuid ≠ b.Isuid then a.Isuid
  else if a.Isgid ≠ b.Isgid then a.Isgid
  else decide (a.Nsid < b.Nsid)

/-- Insertion step of `sortEntries`. -/
def insertEntry (x : Entry) : List Entry → List Entry
  | [] => [x]
  | y :: ys => if lessEntry y x then y :: insertEntry x ys else x :: y :: ys

/-- Model of `sort.Sort` applied with the `Less` of `set.go:60-70`
(insertion sort).  Go's `sort.Sort` only guarantees a permutation that is
sorted with respect to `Less`; it is not a stable sort.  Whenever the sort
keys `(Isuid, Isgid, Nsid)` of the input entries are pairwise distinct — the
case in every theorem below that evaluates a sorted view — the sorted
permutation is unique, so this model coincides with `sort.Sort` there. -/
def sortEntries : List Entry → List Entry
  | [] => []
  | x :: xs => insertEntry x (sortEntries xs)

/-- The expansion step of `Equals` (`set.go:30-37`): an entry tagged both UID
and GID is split into a UID-only entry followed by a GID-only entry. -/
def expandEntries : List Entry → List Entry
  | [] => []
  | e :: rest =>
    if e.Isuid && e.Isgid then
      ⟨true, false, e.Hostid, e.Nsid, e.Maprange⟩ ::
        ⟨false, true, e.Hostid, e.Nsid, e.Maprange⟩ :: expandEntries rest
    else
      e :: expandEntries rest

/-- The normalisation of `Equals` (`set.go:23-43`): a nil pointer is replaced
by the empty set, combined entries are split, and the result is sorted
canonically.  `Option IdmapSet` models the nilable Go pointer. -/
def normalizeSet (m : Option IdmapSet) : List Entry :=
  sortEntries (expandEntries (match m with | none => [] | some s => s.Idmap))

/-- `IdmapSet.Equals` (`set.go:21-47`): normalise both sides and compare the
entry sequences element-wise (`reflect.DeepEqual` on the normalised sets). -/
def IdmapSet.Equals (m other : Option IdmapSet) : Bool :=
  decide (normalizeSet m = normalizeSet other)

/-- `IdmapSet.Intersects` (`set.go:73-81`): the candidate entry intersects
some entry of the set. -/
def IdmapSet.Intersects (m : IdmapSet) (i : Entry) : Bool :=
  m.Idmap.any (fun e => i.Intersects e)

/-- `IdmapSet.HostidsIntersect` (`set.go:84-92`). -/
def IdmapSet.HostidsIntersect (m : IdmapSet) (i : Entry) : Bool :=
  m.Idmap.any (fun e => i.HostidsIntersect e)

/-- The `IDRange` struct (spec §3; used by `ValidRanges`, `set.go:138-143`). -/
structure IDRange where
  Isuid : Bool
  Isgid : Bool
  Startid : Int
  Endid : Int
deriving DecidableEq

/-- The inner scan of `ValidRanges` (`set.go:122-136`): find the first
existing range with the same tag combination whose `Endid + 1` equals the
entry's `Nsid`, and extend it by the entry's `Maprange`; `none` when no such
range exists. -/
def extendFirst (e : Entry) : List IDRange → Option (List IDRange)
  | [] => none
  | r :: rs =>
    if e.Isuid = r.Isuid ∧ e.Isgid = r.Isgid ∧ r.Endid + 1 = e.Nsid then
      some ({ r with Endid := r.Endid + e.Maprange } :: rs)
    else
      match extendFirst e rs with
      | some rs' => some (r :: rs')
      | none => none

/-- The fold of `ValidRanges` over the sorted entries (`set.go:119-144`). -/
def validRangesAux (ranges : List IDRange) : List Entry → List IDRange
  | [] => ranges
  | e :: rest =>
    match extendFirst e ranges with
    | some ranges' => validRangesAux ranges' rest
    | none =>
      validRangesAux
        (ranges ++ [⟨e.Isuid, e.Isgid, e.Nsid, e.Nsid + e.Maprange - 1⟩]) rest

/-- `IdmapSet.ValidRanges` (`set.go:107-147`): sort a copy of the set
canonically, then merge abutting same-tag entries into inclusive ranges.
The Go deep-copy error path cannot fire on this struct and is dropped. -/
def IdmapSet.ValidRanges (m : IdmapSet) : List IDRange :=
  validRangesAux [] (sortEntries m.Idmap)

/-- The `lower` split entry of `AddSafe` (`set.go:166-172`). -/
def lowerPiece (e i : Entry) : Entry :=
  ⟨e.Isuid, e.Isgid, e.Hostid, e.Nsid, i.Nsid - e.Nsid⟩

/-- The `upper` split entry of `AddSafe` (`set.go:174-180`). -/
def upperPiece (e i : Entry) : Entry :=
  ⟨e.Isuid, e.Isgid, e.Hostid + (i.Nsid - e.Nsid) + i.Maprange,
    i.Nsid + i.Maprange, e.Maprange - i.Maprange - (i.Nsid - e.Nsid)⟩

/-- The entries emitted by one splitting iteration of `AddSafe`
(`set.go:182-189`): `lower` if its range is positive, the new entry, `upper`
if its range is positive. -/
def splitPieces (e i : Entry) : List Entry :=
  (if 0 < (lowerPiece e i).Maprange then [lowerPiece e i] else []) ++
    i :: (if 0 < (upperPiece e i).Maprange then [upperPiece e i] else [])

/-- The loop of `AddSafe` (`set.go:152-194`): walk the existing entries in
order building the replacement list; a non-intersecting entry is kept, an
intersecting entry whose host range also intersects aborts the whole
operation, and any other intersecting entry is replaced by `splitPieces`.
The boolean is the `added` flag. -/
def addSafeAux (i : Entry) : List Entry → Option (List Entry × Bool)
  | [] => some ([], false)
  | e :: rest =>
    if e.Intersects i = true then
      if e.HostidsIntersect i = true then
        none
      else
        (addSafeAux i rest).map (fun p => (splitPieces e i ++ p.1, true))
    else
      (addSafeAux i rest).map (fun p => (e :: p.1, p.2))

/-- `IdmapSet.AddSafe` (`set.go:151-199`): on success the replacement list is
committed (with the new entry appended when nothing intersected it); on
`ErrHostIDIsSubID` the set is returned unchanged, as the Go method returns
before assigning `m.Idmap`. -/
def IdmapSet.AddSafe (m : IdmapSet) (i : Entry) : IdmapSet × Option IdmapError :=
  match addSafeAux i m.Idmap with
  | none => (m, some .hostIDIsSubID)
  | some (l, added) => (⟨if added then l else l ++ [i]⟩, none)

/-- `IdmapSet.Append` (`set.go:216-230`).  `Entry.parse` is not among the
provided sources, so the parse outcome is the parameter: `none` models a
parse failure (spec §4.1: `parse` fails with `ParseError` on malformed
input), `some e` a successfully parsed entry.  On any error the set is
returned unchanged, as in the Go method. -/
def IdmapSet.Append (m : IdmapSet) (parsed : Option Entry) :
    IdmapSet × Option IdmapError :=
  match parsed with
  | none => (m, some .parseError)
  | some e =>
    if m.Intersects e = true then
      (m, some .conflictingMapping)
    else
      (⟨m.Idmap ++ [e]⟩, none)

/-- One `switch how` dispatch of `doShiftIntoNs` (`set.go:240-245,253-258`):
`some v` models `err == nil` with translated value `v`.  The Go switch has no
default, so an unrecognised `how` leaves the zero value `0` and a nil error. -/
def doShiftStep (how : String) (e : Entry) (id : Int) : Option Int :=
  if how = "in" then e.shiftIntoNS id
  else if how = "out" then e.shiftFromNS id
  else some 0

/-- One iteration of the `doShiftIntoNs` loop body (`set.go:236-264`): each
component is updated only while it still holds `-1` and the entry carries the
matching tag; a failed shift leaves the component unchanged. -/
def doShiftFold (how : String) (uid gid : Int) (p : Int × Int) (e : Entry) :
    Int × Int :=
  (if e.Isuid = true ∧ p.1 = -1 then (doShiftStep how e uid).getD p.1 else p.1,
   if e.Isgid = true ∧ p.2 = -1 then (doShiftStep how e gid).getD p.2 else p.2)

/-- `IdmapSet.doShiftIntoNs` (`set.go:232-267`). -/
def IdmapSet.doShiftIntoNs (m : IdmapSet) (uid gid : Int) (how : String) :
    Int × Int :=
  m.Idmap.foldl (doShiftFold how uid gid) (-1, -1)

/-- `IdmapSet.ShiftIntoNs` (`set.go:270-272`). -/
def IdmapSet.ShiftIntoNs (m : IdmapSet) (uid gid : Int) : Int × Int :=
  m.doShiftIntoNs uid gid "in"

/-- `IdmapSet.ShiftFromNs` (`set.go:275-277`). -/
def IdmapSet.ShiftFromNs (m : IdmapSet) (uid gid : Int) : Int × Int :=
  m.doShiftIntoNs uid gid "out"

/-- `JSONMarshal` (`set.go:295-302`).  Modelled from the spec for the wire
format: the set serialises as the JSON array of its entry objects
(`entry.go`, which fixes the field names, is not among the provided sources;
Go's `encoding/json` round-trips `int64` fields exactly), so the marshalled
form is modelled as the entry list it denotes. -/
def JSONMarshal (s : IdmapSet) : List Entry :=
  s.Idmap

/-- `JSONUnmarshal` (`set.go:280-292`): decoding the marshalled array
restores the entry list; a decoded array with zero elements yields the
absent (`nil`) set, modelled as `none` (`set.go:287-289`).  The decode-error
path cannot fire on the output of `JSONMarshal` and is dropped. -/
def JSONUnmarshal (j : List Entry) : Option IdmapSet :=
  if j.isEmpty then none else some ⟨j⟩

/-- The comparison of `ByHostID.Less` (`set.go:315-317`): ascending host ID. -/
def byHostIDLess (a b : Entry) : Bool :=
  decide (a.Hostid < b.Hostid)

/-- The insertion-time invariant stated in spec §3 for `IdmapSet`: pairwise,
no two entries share a tag with overlapping namespace ranges or overlapping
host ranges. -/
def setInvariant (l : List Entry) : Prop :=
  List.Pairwise
    (fun a b => a.Intersects b = false ∧ a.HostidsIntersect b = false) l

instance (l : List Entry) : Decidable (setInvariant l) := by
  unfold setInvariant
  apply List.instDecidablePairwise

/-- The namespace half of the insertion-time invariant: pairwise, no two
entries share a tag with overlapping namespace ranges. -/
def nsDisjoint (l : List Entry) : Prop :=
  List.Pairwise (fun a b => a.Intersects b = false) l

instance (l : List Entry) : Decidable (nsDisjoint l) := by
  unfold nsDisjoint
  apply List.instDecidablePairwise

/-- Modelled from the spec (§4.4, corrected by the scan semantics of
`set.go:236-264`): the per-component result of the shift scan — the value of
the first entry with the matching tag whose per-entry shift succeeds with a
value different from `-1`, or `-1` when there is none.  Used as the
specification side of the shift characterisation. -/
def firstShiftMatch (how : String) (tag : Entry → Bool) (id : Int) :
    List Entry → Int
  | [] => -1
  | e :: rest =>
    if tag e then
      match doShiftStep how e id with
      | some v => if v = -1 then firstShiftMatch how tag id rest else v
      | none => firstShiftMatch how tag id rest
    else
      firstShiftMatch how tag id rest


theorem Entry.intersects_iff (a b : Entry) :
    a.Intersects b = true ↔ Entry.sharedTag a b ∧ Entry.nsOverlap a b := by
  unfold Entry.Intersects
  exact decide_eq_true_iff

theorem Entry.intersects_false_iff (a b : Entry) :
    a.Intersects b = false ↔ ¬(Entry.sharedTag a b ∧ Entry.nsOverlap a b) := by
  unfold Entry.Intersects
  exact decide_eq_false_iff_not

theorem Entry.intersects_comm (a b : Entry) : a.Intersects b = b.Intersects a := by
  unfold Entry.Intersects
  rw [decide_eq_decide]
  unfold Entry.sharedTag Entry.nsOverlap
  tauto

theorem intersects_lowerPiece_elim (x e i : Entry)
    (hei : e.Intersects i = true)
    (hx : x.Intersects (lowerPiece e i) = true) : x.Intersects e = true := by
  rw [Entry.intersects_iff] at hei hx ⊢
  obtain ⟨hs, ho⟩ := hx
  obtain ⟨-, ho2⟩ := hei
  constructor
  · simp only [Entry.sharedTag, lowerPiece] at hs ⊢
    exact hs
  · simp only [Entry.nsOverlap, lowerPiece] at ho ho2 ⊢
    omega

theorem intersects_upperPiece_elim (x e i : Entry)
    (hei : e.Intersects i = true)
    (hx : x.Intersects (upperPiece e i) = true) : x.Intersects e = true := by
  rw [Entry.intersects_iff] at hei hx ⊢
  obtain ⟨hs, ho⟩ := hx
  obtain ⟨-, ho2⟩ := hei
  constructor
  · simp only [Entry.sharedTag, upperPiece] at hs ⊢
    exact hs
  · simp only [Entry.nsOverlap, upperPiece] at ho ho2 ⊢
    omega

theorem splitPieces_nsDisjoint (e i : Entry) (hei : e.Intersects i = true) :
    nsDisjoint (splitPieces e i) := by
  have hov := ((Entry.intersects_iff e i).1 hei).2
  unfold Entry.nsOverlap at hov
  have h1 : (lowerPiece e i).Intersects i = false := by
    rw [Entry.intersects_false_iff]
    rintro ⟨-, ho⟩
    simp only [Entry.nsOverlap, lowerPiece] at ho
    omega
  have h2 : (lowerPiece e i).Intersects (upperPiece e i) = false := by
    rw [Entry.intersects_false_iff]
    rintro ⟨-, ho⟩
    simp only [Entry.nsOverlap, lowerPiece, upperPiece] at ho
    omega
  have h3 : i.Intersects (upperPiece e i) = false := by
    rw [Entry.intersects_false_iff]
    rintro ⟨-, ho⟩
    simp only [Entry.nsOverlap, upperPiece] at ho
    omega
  unfold nsDisjoint splitPieces
  by_cases hl : 0 < (lowerPiece e i).Maprange <;>
    by_cases hu : 0 < (upperPiece e i).Maprange
  · rw [if_pos hl, if_pos hu]
    simp [List.pairwise_cons, h1, h2, h3]
  · rw [if_pos hl, if_neg hu]
    simp [List.pairwise_cons, h1]
  · rw [if_neg hl, if_pos hu]
    simp [List.pairwise_cons, h3]
  · rw [if_neg hl, if_neg hu]
    simp

theorem mem_splitPieces (x e i : Entry) (hx : x ∈ splitPieces e i) :
    x = lowerPiece e i ∨ x = i ∨ x = upperPiece e i := by
  unfold splitPieces at hx
  rcases List.mem_append.1 hx with h | h
  · by_cases hl : 0 < (lowerPiece e i).Maprange
    · rw [if_pos hl] at h
      simp at h
      exact Or.inl h
    · rw [if_neg hl] at h
      simp at h
  · rcases List.mem_cons.1 h with h | h
    · exact Or.inr (Or.inl h)
    · by_cases hu : 0 < (upperPiece e i).Maprange
      · rw [if_pos hu] at h
        simp at h
        exact Or.inr (Or.inr h)
      · rw [if_neg hu] at h
        simp at h

theorem addSafeAux_keep (i : Entry) (l : List Entry)
    (h : ∀ e ∈ l, e.Intersects i = false) : addSafeAux i l = some (l, false) := by
  induction l with
  | nil => rfl
  | cons e rest ih =>
    unfold addSafeAux
    rw [if_neg (by simp [h e (List.mem_cons_self e rest)])]
    rw [ih (fun x hx => h x (List.mem_cons_of_mem e hx))]
    rfl

theorem addSafeAux_mem (i : Entry) (l : List Entry) :
    ∀ (r : List Entry) (added : Bool), addSafeAux i l = some (r, added) →
      ∀ x ∈ r, (x ∈ l ∧ x.Intersects i = false) ∨
        ∃ e, e ∈ l ∧ e.Intersects i = true ∧ x ∈ splitPieces e i := by
  induction l with
  | nil =>
    intro r added h x hx
    unfold addSafeAux at h
    simp at h
    rw [h.1] at hx
    simp at hx
  | cons e rest ih =>
    intro r added h x hx
    unfold addSafeAux at h
    by_cases hint : e.Intersects i = true
    · rw [if_pos hint] at h
      by_cases hhost : e.HostidsIntersect i = true
      · rw [if_pos hhost] at h
        simp at h
      · rw [if_neg hhost] at h
        cases hrest : addSafeAux i rest with
        | none =>
          rw [hrest] at h
          simp at h
        | some p =>
          obtain ⟨r', added'⟩ := p
          rw [hrest] at h
          simp at h
          rw [← h.1] at hx
          rcases List.mem_append.1 hx with hx1 | hx2
          · exact Or.inr ⟨e, List.mem_cons_self e rest, hint, hx1⟩
          · rcases ih r' added' hrest x hx2 with ⟨hm, hni⟩ | ⟨e', he', hei, hxe⟩
            · exact Or.inl ⟨List.mem_cons_of_mem e hm, hni⟩
            · exact Or.inr ⟨e', List.mem_cons_of_mem e he', hei, hxe⟩
    · rw [if_neg hint] at h
      cases hrest : addSafeAux i rest with
      | none =>
        rw [hrest] at h
        simp at h
      | some p =>
        obtain ⟨r', added'⟩ := p
        rw [hrest] at h
        simp at h
        rw [← h.1] at hx
        rcases List.mem_cons.1 hx with hx1 | hx2
        · rw [hx1]
          exact Or.inl ⟨List.mem_cons_self e rest, by simpa using hint⟩
        · rcases ih r' added' hrest x hx2 with ⟨hm, hni⟩ | ⟨e', he', hei, hxe⟩
          · exact Or.inl ⟨List.mem_cons_of_mem e hm, hni⟩
          · exact Or.inr ⟨e', List.mem_cons_of_mem e he', hei, hxe⟩

theorem addSafeAux_nsDisjoint (i : Entry) (l : List Entry) :
    ∀ (r : List Entry) (added : Bool),
      addSafeAux i l = some (r, added) →
      nsDisjoint l →
      l.countP (fun e => e.Intersects i) ≤ 1 →
      nsDisjoint r ∧ (added = false → r = l ∧ ∀ x ∈ l, x.Intersects i = false) := by
  induction l with
  | nil =>
    intro r added h _ _
    unfold addSafeAux at h
    simp at h
    obtain ⟨h1, h2⟩ := h
    rw [h1, ← h2]
    exact ⟨List.Pairwise.nil, fun _ => ⟨rfl, by simp⟩⟩
  | cons e rest ih =>
    intro r added h hp hc
    unfold nsDisjoint at hp
    have hpr : List.Pairwise (fun a b => a.Intersects b = false) rest :=
      (List.pairwise_cons.1 hp).2
    have hpe : ∀ y ∈ rest, e.Intersects y = false := (List.pairwise_cons.1 hp).1
    unfold addSafeAux at h
    by_cases hint : e.Intersects i = true
    · rw [if_pos hint] at h
      by_cases hhost : e.HostidsIntersect i = true
      · rw [if_pos hhost] at h
        simp at h
      · rw [if_neg hhost] at h
        have hc0 : ∀ y ∈ rest, y.Intersects i = false := by
          rw [List.countP_cons] at hc
          simp only [hint, if_pos] at hc
          intro y hy
          have h0 : rest.countP (fun e => e.Intersects i) = 0 := by omega
          simpa using List.countP_eq_zero.1 h0 y hy
        rw [addSafeAux_keep i rest hc0] at h
        simp at h
        obtain ⟨hr, hadd⟩ := h
        subst hr
        subst hadd
        refine ⟨?_, by simp⟩
        unfold nsDisjoint
        refine List.pairwise_append.2 ⟨splitPieces_nsDisjoint e i hint, hpr, ?_⟩
        intro x hx y hy
        rcases mem_splitPieces x e i hx with hxl | hxi | hxu
        · rw [hxl]
          cases hb : (lowerPiece e i).Intersects y with
          | false => rfl
          | true =>
            exfalso
            have h1 : y.Intersects (lowerPiece e i) = true :=
              (Entry.intersects_comm y (lowerPiece e i)).trans hb
            have h2 := intersects_lowerPiece_elim y e i hint h1
            have h3 : e.Intersects y = true := (Entry.intersects_comm e y).trans h2
            simp [hpe y hy] at h3
        · rw [hxi, Entry.intersects_comm]
          exact hc0 y hy
        · rw [hxu]
          cases hb : (upperPiece e i).Intersects y with
          | false => rfl
          | true =>
            exfalso
            have h1 : y.Intersects (upperPiece e i) = true :=
              (Entry.intersects_comm y (upperPiece e i)).trans hb
            have h2 := intersects_upperPiece_elim y e i hint h1
            have h3 : e.Intersects y = true := (Entry.intersects_comm e y).trans h2
            simp [hpe y hy] at h3
    · rw [if_neg hint] at h
      cases hrest : addSafeAux i rest with
      | none =>
        rw [hrest] at h
        simp at h
      | some p =>
        obtain ⟨r', added'⟩ := p
        rw [hrest] at h
        simp at h
        obtain ⟨hr, hadd⟩ := h
        subst hr
        subst hadd
        have hcr : rest.countP (fun e => e.Intersects i) ≤ 1 := by
          rw [List.countP_cons] at hc
          omega
        obtain ⟨hd, himp⟩ := ih r' added' hrest hpr hcr
        refine ⟨?_, ?_⟩
        · unfold nsDisjoint at hd ⊢
          rw [List.pairwise_cons]
          refine ⟨?_, hd⟩
          intro x hx
          rcases addSafeAux_mem i rest r' added' hrest x hx with ⟨hm, -⟩ | ⟨e', he', hei, hxe⟩
          · exact hpe x hm
          · rcases mem_splitPieces x e' i hxe with hxl | hxi | hxu
            · cases hb : e.Intersects x with
              | false => rfl
              | true =>
                exfalso
                rw [hxl] at hb
                have h2 := intersects_lowerPiece_elim e e' i hei hb
                simp [hpe e' he'] at h2
            · rw [hxi]
              simpa using hint
            · cases hb : e.Intersects x with
              | false => rfl
              | true =>
                exfalso
                rw [hxu] at hb
                have h2 := intersects_upperPiece_elim e e' i hei hb
                simp [hpe e' he'] at h2
        · intro hf
          obtain ⟨hr', hall⟩ := himp hf
          subst hr'
          refine ⟨rfl, fun x hx => ?_⟩
          rcases List.mem_cons.1 hx with h1 | h2
          · rw [h1]
            simpa using hint
          · exact hall x h2

theorem count_splitPieces (e i : Entry) (hii : i.Intersects i = true) :
    (splitPieces e i).count i = 1 := by
  have hpos : 0 < i.Maprange := ((Entry.intersects_iff i i).1 hii).2.1
  have hl : lowerPiece e i ≠ i := by
    intro h
    have h1 : (lowerPiece e i).Nsid = i.Nsid := by rw [h]
    have h2 : (lowerPiece e i).Maprange = i.Maprange := by rw [h]
    simp only [lowerPiece] at h1 h2
    omega
  have hu : upperPiece e i ≠ i := by
    intro h
    have h1 : (upperPiece e i).Nsid = i.Nsid := by rw [h]
    simp only [upperPiece] at h1
    omega
  unfold splitPieces
  by_cases h1 : 0 < (lowerPiece e i).Maprange <;>
    by_cases h2 : 0 < (upperPiece e i).Maprange
  · rw [if_pos h1, if_pos h2]
    simp [List.count_cons, List.count_append, hl, hu]
  · rw [if_pos h1, if_neg h2]
    simp [List.count_cons, List.count_append, hl]
  · rw [if_neg h1, if_pos h2]
    simp [List.count_cons, hu]
  · rw [if_neg h1, if_neg h2]
    simp

theorem addSafeAux_count (i : Entry) (hii : i.Intersects i = true) (l : List Entry) :
    ∀ (r : List Entry) (added : Bool), addSafeAux i l = some (r, added) →
      r.count i = l.countP (fun e => e.Intersects i) ∧
      (added = true ↔ 0 < l.countP (fun e => e.Intersects i)) := by
  induction l with
  | nil =>
    intro r added h
    unfold addSafeAux at h
    simp at h
    obtain ⟨h1, h2⟩ := h
    rw [h1, h2]
    simp
  | cons e rest ih =>
    intro r added h
    unfold addSafeAux at h
    by_cases hint : e.Intersects i = true
    · rw [if_pos hint] at h
      by_cases hhost : e.HostidsIntersect i = true
      · rw [if_pos hhost] at h
        simp at h
      · rw [if_neg hhost] at h
        cases hrest : addSafeAux i rest with
        | none =>
          rw [hrest] at h
          simp at h
        | some p =>
          obtain ⟨r', added'⟩ := p
          rw [hrest] at h
          simp at h
          obtain ⟨hr, hadd⟩ := h
          subst hr
          subst hadd
          obtain ⟨hcnt, -⟩ := ih r' added' hrest
          rw [List.count_append, count_splitPieces e i hii, hcnt, List.countP_cons]
          simp [hint]
          omega
    · rw [if_neg hint] at h
      cases hrest : addSafeAux i rest with
      | none =>
        rw [hrest] at h
        simp at h
      | some p =>
        obtain ⟨r', added'⟩ := p
        rw [hrest] at h
        simp at h
        obtain ⟨hr, hadd⟩ := h
        subst hr
        subst hadd
        obtain ⟨hcnt, hiff⟩ := ih r' added' hrest
        have hne : e ≠ i := by
          intro hei
          rw [hei] at hint
          exact hint hii
        have hbeq : (e == i) = false := by
          simp [hne]
        constructor
        · rw [List.count_cons, hcnt, List.countP_cons]
          simp only [hbeq, Bool.false_eq_true, if_false]
          simp [hint]
        · rw [List.countP_cons]
          simp only [hint, if_false, Nat.add_zero]
          exact hiff

theorem doShiftFold_split (how : String) (uid gid : Int) (l : List Entry) :
    ∀ (u0 g0 : Int),
      l.foldl (doShiftFold how uid gid) (u0, g0) =
        (l.foldl (fun u e => if e.Isuid = true ∧ u = -1 then (doShiftStep how e uid).getD u else u) u0,
         l.foldl (fun g e => if e.Isgid = true ∧ g = -1 then (doShiftStep how e gid).getD g else g) g0) := by
  induction l with
  | nil => intro u0 g0; rfl
  | cons e rest ih =>
    intro u0 g0
    rw [List.foldl_cons, List.foldl_cons, List.foldl_cons]
    exact ih _ _

theorem foldl_shift_component (how : String) (id : Int) (tag : Entry → Bool)
    (l : List Entry) :
    ∀ u0 : Int,
      l.foldl (fun u e => if tag e = true ∧ u = -1 then (doShiftStep how e id).getD u else u) u0 =
        if u0 = -1 then firstShiftMatch how tag id l else u0 := by
  induction l with
  | nil =>
    intro u0
    by_cases h : u0 = -1 <;> simp [firstShiftMatch, h]
  | cons e rest ih =>
    intro u0
    rw [List.foldl_cons]
    by_cases hu : u0 = -1
    · subst hu
      cases htag : tag e with
      | false =>
        rw [ih]
        simp [firstShiftMatch, htag]
      | true =>
        cases hstep : doShiftStep how e id with
        | none =>
          rw [ih]
          simp [firstShiftMatch, htag, hstep]
        | some v =>
          by_cases hv : v = -1
          · subst hv
            rw [ih]
            simp [firstShiftMatch, htag, hstep]
          · rw [ih]
            simp [firstShiftMatch, htag, hstep, hv]
    · rw [ih]
      simp [hu]

theorem doShiftIntoNs_spec (m : IdmapSet) (uid gid : Int) (how : String) :
    m.doShiftIntoNs uid gid how =
      (firstShiftMatch how (fun e => e.Isuid) uid m.Idmap,
       firstShiftMatch how (fun e => e.Isgid) gid m.Idmap) := by
  unfold IdmapSet.doShiftIntoNs
  rw [doShiftFold_split]
  have hu := foldl_shift_component how uid (fun e => e.Isuid) m.Idmap (-1)
  have hg := foldl_shift_component how gid (fun e => e.Isgid) m.Idmap (-1)
  rw [hu, hg]
  simp

/-- C1, corrected.  The insertion-time invariant that survives on the code is
the namespace half, and for `AddSafe` only when the new entry namespace-
intersects at most one existing entry: every successful `Append` preserves
pairwise namespace-range disjointness per shared tag, and so does every
successful `AddSafe` whose new entry intersects at most one existing entry.
The host-range half of the claimed invariant is refuted by
`claim1_counterexample`, as is the `AddSafe` case with two or more
intersecting entries. -/
theorem claim1_insertion_invariant :
    (∀ (m : IdmapSet) (e : Entry), nsDisjoint m.Idmap →
      (m.Append (some e)).2 = none → nsDisjoint (m.Append (some e)).1.Idmap) ∧
    (∀ (m : IdmapSet) (i : Entry), nsDisjoint m.Idmap →
      m.Idmap.countP (fun e => e.Intersects i) ≤ 1 →
      (m.AddSafe i).2 = none → nsDisjoint (m.AddSafe i).1.Idmap) := by
  constructor
  · intro m e hp hs
    by_cases hi : m.Intersects e = true
    · simp [IdmapSet.Append, hi] at hs
    · have hgoal : (m.Append (some e)).1.Idmap = m.Idmap ++ [e] := by
        simp [IdmapSet.Append, hi]
      rw [hgoal]
      have hall : ∀ x ∈ m.Idmap, e.Intersects x = false := by
        unfold IdmapSet.Intersects at hi
        intro x hx
        cases hb : e.Intersects x with
        | false => rfl
        | true => exact absurd (List.any_eq_true.2 ⟨x, hx, hb⟩) hi
      unfold nsDisjoint at hp ⊢
      refine List.pairwise_append.2 ⟨hp, by simp, ?_⟩
      intro x hx y hy
      simp at hy
      rw [hy, Entry.intersects_comm]
      exact hall x hx
  · intro m i hp hc hs
    cases haux : addSafeAux i m.Idmap with
    | none =>
      simp [IdmapSet.AddSafe, haux] at hs
    | some p =>
      obtain ⟨r, added⟩ := p
      have hgoal : (m.AddSafe i).1.Idmap = if added = true then r else r ++ [i] := by
        simp [IdmapSet.AddSafe, haux]
      rw [hgoal]
      obtain ⟨hd, himp⟩ := addSafeAux_nsDisjoint i m.Idmap r added haux hp hc
      cases added with
      | true => simpa using hd
      | false =>
        obtain ⟨hr, hall⟩ := himp rfl
        simp only [Bool.false_eq_true, if_false]
        subst hr
        unfold nsDisjoint at hd ⊢
        refine List.pairwise_append.2 ⟨hd, by simp, ?_⟩
        intro x hx y hy
        simp at hy
        rw [hy]
        exact hall x hx

/-- Witness for C1: both amended conjuncts applied at concrete inputs — an
`Append` of a GID entry next to a UID entry, and the `AddSafe` split example
of spec §8. -/
theorem claim1_insertion_invariant_witness :
    nsDisjoint ((⟨[⟨true, false, 0, 0, 10⟩]⟩ : IdmapSet).Append
      (some ⟨false, true, 0, 0, 10⟩)).1.Idmap ∧
    nsDisjoint ((⟨[⟨true, false, 0, 0, 100⟩]⟩ : IdmapSet).AddSafe
      ⟨true, false, 200, 40, 10⟩).1.Idmap :=
  ⟨claim1_insertion_invariant.1 _ _ (by decide) (by decide),
   claim1_insertion_invariant.2 _ _ (by decide) (by decide) (by decide)⟩

/-- Counterexample to C1 as stated.  First part: starting from the empty set,
two successful `AddSafe` calls (`{uid,host=0,ns=0,range=10}` then
`{uid,host=5,ns=100,range=10}`) build a set whose two entries have
overlapping host ranges for the shared UID tag — `AddSafe` never host-checks
entries that do not namespace-intersect the new entry, so the claimed
invariant fails on a set built only through `AddSafe`.  Second part: starting
from the empty set, two successful `Append` calls followed by a successful
`AddSafe` whose entry namespace-intersects both existing entries leave the
new entry duplicated, so even namespace disjointness fails. -/
theorem claim1_counterexample :
    (((⟨[]⟩ : IdmapSet).AddSafe ⟨true, false, 0, 0, 10⟩).2 = none ∧
     (((⟨[]⟩ : IdmapSet).AddSafe ⟨true, false, 0, 0, 10⟩).1.AddSafe
       ⟨true, false, 5, 100, 10⟩).2 = none ∧
     ¬ setInvariant ((((⟨[]⟩ : IdmapSet).AddSafe ⟨true, false, 0, 0, 10⟩).1.AddSafe
       ⟨true, false, 5, 100, 10⟩).1.Idmap) ∧
    ((((⟨[]⟩ : IdmapSet).Append (some ⟨true, false, 0, 0, 20⟩)).1.Append
        (some ⟨true, false, 50, 20, 20⟩)).1.AddSafe ⟨true, false, 300, 10, 20⟩).2 = none ∧
     ¬ nsDisjoint ((((⟨[]⟩ : IdmapSet).Append (some ⟨true, false, 0, 0, 20⟩)).1.Append
        (some ⟨true, false, 50, 20, 20⟩)).1.AddSafe ⟨true, false, 300, 10, 20⟩).1.Idmap) := by
  decide

/-- C2, corrected.  `AddSafe` emits one copy of the new entry per intersecting
existing entry (`set.go:186` runs once per loop iteration that splits), and
appends a single copy only when nothing intersected, so for a self-
intersecting new entry (tagged, positive range) the number of copies in the
successful result is `max 1 k` where `k` is the number of existing entries it
namespace-intersects; it is `1` exactly when `k ≤ 1`.  The claim's "exactly
once ... in particular when it intersects two or more entries" is refuted by
`claim2_counterexample`. -/
theorem claim2_addsafe_insert_count (m : IdmapSet) (i : Entry)
    (hii : i.Intersects i = true) (hs : (m.AddSafe i).2 = none) :
    ((m.AddSafe i).1.Idmap).count i =
      max 1 (m.Idmap.countP (fun e => e.Intersects i)) := by
  cases haux : addSafeAux i m.Idmap with
  | none => simp [IdmapSet.AddSafe, haux] at hs
  | some p =>
    obtain ⟨r, added⟩ := p
    have hgoal : (m.AddSafe i).1.Idmap = if added = true then r else r ++ [i] := by
      simp [IdmapSet.AddSafe, haux]
    rw [hgoal]
    obtain ⟨hcnt, hiff⟩ := addSafeAux_count i hii m.Idmap r added haux
    cases added with
    | true =>
      have hpos := hiff.1 rfl
      simp only [if_pos]
      rw [hcnt]
      omega
    | false =>
      have h0 : m.Idmap.countP (fun e => e.Intersects i) = 0 := by
        rcases Nat.eq_zero_or_pos (m.Idmap.countP (fun e => e.Intersects i)) with h | h
        · exact h
        · simpa using hiff.2 h
      simp only [Bool.false_eq_true, if_false]
      rw [List.count_append, hcnt, h0]
      simp

/-- Witness for C2: the spec §8 example — one intersecting entry, so the new
entry appears exactly once. -/
theorem claim2_addsafe_insert_count_witness :
    (((⟨[⟨true, false, 0, 0, 100⟩]⟩ : IdmapSet).AddSafe
        ⟨true, false, 200, 40, 10⟩).1.Idmap).count ⟨true, false, 200, 40, 10⟩ =
      max 1 (([⟨true, false, 0, 0, 100⟩] : List Entry).countP
        (fun e => e.Intersects ⟨true, false, 200, 40, 10⟩)) :=
  claim2_addsafe_insert_count _ _ (by decide) (by decide)

/-- Counterexample to C2 as stated: inserting `{uid,host=400,ns=6,range=12}`
into `{uid,host=0,ns=0,range=12}, {uid,host=70,ns=12,range=12}` succeeds and
the new entry namespace-intersects both existing entries, so it appears twice
in the result, not exactly once. -/
theorem claim2_counterexample :
    (IdmapSet.AddSafe ⟨[⟨true, false, 0, 0, 12⟩, ⟨true, false, 70, 12, 12⟩]⟩
      ⟨true, false, 400, 6, 12⟩).2 = none ∧
    ((IdmapSet.AddSafe ⟨[⟨true, false, 0, 0, 12⟩, ⟨true, false, 70, 12, 12⟩]⟩
      ⟨true, false, 400, 6, 12⟩).1.Idmap).count ⟨true, false, 400, 6, 12⟩ = 2 := by
  decide

/-- C3, confirmed.  Mutation failures are atomic: when `AddSafe` returns any
error (`ErrHostIDIsSubID`) the set is exactly the input set, and when
`Append` returns any error (parse failure or conflicting mapping) the set is
exactly the input set — both methods build the replacement list locally and
return before committing on every error path. -/
theorem claim3_mutation_atomicity :
    (∀ (m : IdmapSet) (i : Entry) (err : IdmapError),
      (m.AddSafe i).2 = some err → (m.AddSafe i).1 = m) ∧
    (∀ (m : IdmapSet) (parsed : Option Entry) (err : IdmapError),
      (m.Append parsed).2 = some err → (m.Append parsed).1 = m) := by
  constructor
  · intro m i err h
    cases haux : addSafeAux i m.Idmap with
    | none => simp [IdmapSet.AddSafe, haux]
    | some p =>
      obtain ⟨r, added⟩ := p
      simp [IdmapSet.AddSafe, haux] at h
  · intro m parsed err h
    cases parsed with
    | none => rfl
    | some e =>
      by_cases hi : m.Intersects e = true
      · simp [IdmapSet.Append, hi]
      · simp [IdmapSet.Append, hi] at h

/-- Witness for C3: a failing `AddSafe` (host collision inside the same
range), a failing `Append` on a parse error, and a failing `Append` on a
namespace conflict, each leaving the one-entry set unchanged. -/
theorem claim3_mutation_atomicity_witness :
    ((⟨[⟨true, false, 0, 0, 10⟩]⟩ : IdmapSet).AddSafe ⟨true, false, 5, 5, 2⟩).1 =
      ⟨[⟨true, false, 0, 0, 10⟩]⟩ ∧
    ((⟨[⟨true, false, 0, 0, 10⟩]⟩ : IdmapSet).Append none).1 =
      ⟨[⟨true, false, 0, 0, 10⟩]⟩ ∧
    ((⟨[⟨true, false, 0, 0, 10⟩]⟩ : IdmapSet).Append
      (some ⟨true, false, 100, 5, 10⟩)).1 = ⟨[⟨true, false, 0, 0, 10⟩]⟩ :=
  ⟨claim3_mutation_atomicity.1 _ _ .hostIDIsSubID (by decide),
   claim3_mutation_atomicity.2 _ none .parseError (by decide),
   claim3_mutation_atomicity.2 _ _ .conflictingMapping (by decide)⟩

/-- C4, confirmed.  Inserting `{uid,host=200,ns=40,range=10}` into
`{uid,host=0,ns=0,range=100}` succeeds and yields exactly the three entries
of the spec in order; every namespace ID in `[0,99]` is covered by exactly
one entry, and the host ranges are pairwise disjoint. -/
theorem claim4_addsafe_split_example :
    (IdmapSet.AddSafe ⟨[⟨true, false, 0, 0, 100⟩]⟩ ⟨true, false, 200, 40, 10⟩).2 = none ∧
    (IdmapSet.AddSafe ⟨[⟨true, false, 0, 0, 100⟩]⟩ ⟨true, false, 200, 40, 10⟩).1.Idmap =
      [⟨true, false, 0, 0, 40⟩, ⟨true, false, 200, 40, 10⟩, ⟨true, false, 50, 50, 50⟩] ∧
    ((List.range 100).all fun n =>
      ((IdmapSet.AddSafe ⟨[⟨true, false, 0, 0, 100⟩]⟩
          ⟨true, false, 200, 40, 10⟩).1.Idmap.countP
        (fun e => decide (e.Nsid ≤ (n : Int) ∧ (n : Int) < e.Nsid + e.Maprange))) == 1) = true ∧
    List.Pairwise (fun a b => a.HostidsIntersect b = false)
      (IdmapSet.AddSafe ⟨[⟨true, false, 0, 0, 100⟩]⟩ ⟨true, false, 200, 40, 10⟩).1.Idmap := by
  decide

/-- C5, confirmed.  `Equals` is representation-independent: one combined
UID+GID entry equals the two split entries in either insertion order, and a
nil set, modelled as `none`, equals an empty set. -/
theorem claim5_equals_representation :
    IdmapSet.Equals (some ⟨[⟨true, true, 100, 0, 10⟩]⟩)
      (some ⟨[⟨true, false, 100, 0, 10⟩, ⟨false, true, 100, 0, 10⟩]⟩) = true ∧
    IdmapSet.Equals (some ⟨[⟨true, true, 100, 0, 10⟩]⟩)
      (some ⟨[⟨false, true, 100, 0, 10⟩, ⟨true, false, 100, 0, 10⟩]⟩) = true ∧
    IdmapSet.Equals none (some ⟨[]⟩) = true ∧
    IdmapSet.Equals (some ⟨[]⟩) none = true ∧
    IdmapSet.Equals none none = true := by
  decide

/-- C6, confirmed.  `ValidRanges` merges namespace-contiguous same-tag
entries into one inclusive range and leaves non-contiguous entries as two
ranges, for arbitrary host IDs. -/
theorem claim6_validranges_merge (h1 h2 h3 h4 : Int) :
    IdmapSet.ValidRanges ⟨[⟨true, false, h1, 0, 10⟩, ⟨true, false, h2, 10, 5⟩]⟩ =
      [⟨true, false, 0, 14⟩] ∧
    IdmapSet.ValidRanges ⟨[⟨true, false, h3, 0, 10⟩, ⟨true, false, h4, 20, 5⟩]⟩ =
      [⟨true, false, 0, 9⟩, ⟨true, false, 20, 24⟩] :=
  ⟨rfl, rfl⟩

/-- C7, corrected.  The concrete shift examples hold: for the set whose only
entry is `{uid,host=1000,ns=0,range=10}`, `ShiftIntoNs 1005` yields uid
component `5`, `ShiftFromNs 5` yields `1005`, and `ShiftIntoNs 2000` yields
the sentinel `-1`.  The general scan, however, returns the value of the
first entry with the matching tag whose per-entry shift succeeds *with a
value different from `-1`* (a successful shift to `-1` does not stop the
scan — see `claim7_counterexample`), independently for the UID and GID
components. -/
theorem claim7_shift_first_match :
    (∀ g : Int, ((⟨[⟨true, false, 1000, 0, 10⟩]⟩ : IdmapSet).ShiftIntoNs 1005 g).1 = 5) ∧
    (∀ g : Int, ((⟨[⟨true, false, 1000, 0, 10⟩]⟩ : IdmapSet).ShiftFromNs 5 g).1 = 1005) ∧
    (∀ g : Int, ((⟨[⟨true, false, 1000, 0, 10⟩]⟩ : IdmapSet).ShiftIntoNs 2000 g).1 = -1) ∧
    (∀ (m : IdmapSet) (uid gid : Int),
      m.ShiftIntoNs uid gid =
        (firstShiftMatch "in" (fun e => e.Isuid) uid m.Idmap,
         firstShiftMatch "in" (fun e => e.Isgid) gid m.Idmap) ∧
      m.ShiftFromNs uid gid =
        (firstShiftMatch "out" (fun e => e.Isuid) uid m.Idmap,
         firstShiftMatch "out" (fun e => e.Isgid) gid m.Idmap)) :=
  ⟨fun _ => rfl, fun _ => rfl, fun _ => rfl,
   fun m uid gid => ⟨doShiftIntoNs_spec m uid gid "in", doShiftIntoNs_spec m uid gid "out"⟩⟩

/-- Counterexample to C7's "first entry whose per-entry shift succeeds"
clause: the first UID entry's shift of host ID `0` succeeds with value `-1`,
yet the set-level result is the second entry's value `42`, not the first
successful match. -/
theorem claim7_counterexample :
    Entry.shiftIntoNS ⟨true, false, 0, -1, 1⟩ 0 = some (-1) ∧
    ((⟨[⟨true, false, 0, -1, 1⟩, ⟨true, false, 0, 42, 1⟩]⟩ : IdmapSet).ShiftIntoNs 0 0).1 = 42 := by
  decide

/-- C8, confirmed.  The JSON round-trip of any set is `Equals`-equivalent to
the original, and a set with zero entries unmarshals to the absent (`none`)
set rather than an empty-but-present one. -/
theorem claim8_json_roundtrip (S : IdmapSet) :
    IdmapSet.Equals (JSONUnmarshal (JSONMarshal S)) (some S) = true ∧
    (S.Idmap = [] → JSONUnmarshal (JSONMarshal S) = none) := by
  obtain ⟨l⟩ := S
  cases l with
  | nil => exact ⟨by decide, fun _ => rfl⟩
  | cons e es =>
    refine ⟨?_, by simp⟩
    have h : JSONUnmarshal (JSONMarshal ⟨e :: es⟩) = some ⟨e :: es⟩ := rfl
    rw [h]
    simp [IdmapSet.Equals]

/-- Witness for C8: the empty set marshals to the empty array, which
unmarshals to the absent set, and the round-trip compares `Equals`-equal. -/
theorem claim8_json_roundtrip_witness :
    IdmapSet.Equals (JSONUnmarshal (JSONMarshal ⟨[]⟩)) (some ⟨[]⟩) = true ∧
    JSONUnmarshal (JSONMarshal ⟨[]⟩) = none :=
  ⟨(claim8_json_roundtrip ⟨[]⟩).1, (claim8_json_roundtrip ⟨[]⟩).2 rfl⟩

/-- C10, confirmed.  The `-1` sentinel is overloaded: the first entry's shift
of host ID `10` succeeds with the legitimate namespace value `-1`
(entry `{uid,host=7,ns=-4,range=4}`), which is indistinguishable from "not
yet matched", so the scan continues and the second entry overwrites the
result with `101` instead of the first successful match being final. -/
theorem claim10_sentinel_overload :
    Entry.shiftIntoNS ⟨true, false, 7, -4, 4⟩ 10 = some (-1) ∧
    ((⟨[⟨true, false, 7, -4, 4⟩, ⟨true, false, 9, 100, 5⟩]⟩ : IdmapSet).ShiftIntoNs 10 0).1 = 101 := by
  decide
